import Mathlib

/-!
# Verification of the kilo text viewer (src/kilo.c)

A shallow embedding of the editor data model and operations.

Conventions:
* `size_t` values are modelled as `Nat`; the single place where the C code can
  underflow a `size_t` subtraction (`E.screen_cols - 1` in the End-key handler)
  goes through `szSub`, which reproduces the 64-bit wraparound on all values
  representable in a `size_t`.
* The C `int` cast in `editor_draw_rows` (`(int) size - (int) col_off`) is
  modelled exactly by `toCInt`, the conversion of an unsigned 64-bit value to a
  32-bit signed two-complement `int`.
* Bytes are `Nat` (values `< 256` in any real input); rows are `List Nat`.
* The global `struct editor_config E` becomes the structure `editor_config`
  passed explicitly.  The C field `num_rows` always equals the number of
  allocated rows (`editor_append_row` increments it with each append), so it is
  represented by `(editor_config.row · ).length`.
-/

/-- Width of `size_t` (the code targets LP64 platforms). -/
def SZ_WORD : Nat := 2 ^ 64

/-- `size_t` subtraction with 64-bit wraparound.  Agrees with C `a - b` for all
`a, b < 2^64`. -/
def szSub (a b : Nat) : Nat :=
  if b ≤ a then a - b else SZ_WORD - (b - a)

/-- Conversion of an unsigned value to a 32-bit signed two-complement `int`, as
performed by the casts `(int) E.row[filerow].size` and `(int) E.col_off` in
`editor_draw_rows`. -/
def toCInt (n : Nat) : Int :=
  let m : Nat := n % 2 ^ 32
  if m < 2 ^ 31 then (m : Int) else (m : Int) - 2 ^ 32

/-- Byte list of a Lean string literal (all wire constants are ASCII). -/
def strBytes (s : String) : List Nat :=
  s.data.map Char.toNat

/- Key codes from `enum editor_key` (values chosen not to collide with bytes). -/

def ARROW_LEFT : Nat := 1000
def ARROW_RIGHT : Nat := 1001
def ARROW_UP : Nat := 1002
def ARROW_DOWN : Nat := 1003
def DEL_KEY : Nat := 1004
def HOME_KEY : Nat := 1005
def END_KEY : Nat := 1006
def PAGE_UP : Nat := 1007
def PAGE_DOWN : Nat := 1008

/-- `CTRL_KEY('q')` = `'q' & 0x1f`. -/
def CTRL_Q : Nat := 113 % 32

/-- The mutable editor state `struct editor_config` (terminal attributes
omitted: no claim concerns them).  `num_rows` is `row.length`. -/
structure editor_config where
  cx : Nat
  cy : Nat
  row_off : Nat
  col_off : Nat
  screen_rows : Nat
  screen_cols : Nat
  row : List (List Nat)
deriving DecidableEq

/-- `editor_move_cursor` (src/kilo.c:428-456): one arrow-key step.  `row` is
`NULL` exactly when `cy >= num_rows`, which is `List.getElem?` returning
`none`. -/
def editor_move_cursor (key : Nat) (s : editor_config) : editor_config :=
  let row := s.row[s.cy]?
  if key = ARROW_LEFT then
    if s.cx ≠ 0 then { s with cx := s.cx - 1 } else s
  else if key = ARROW_RIGHT then
    match row with
    | some r => if s.cx < r.length then { s with cx := s.cx + 1 } else s
    | none => s
  else if key = ARROW_UP then
    if s.cy ≠ 0 then { s with cy := s.cy - 1 } else s
  else if key = ARROW_DOWN then
    if s.cy < s.row.length then { s with cy := s.cy + 1 } else s
  else s

/-- `editor_scroll` (src/kilo.c:321-334).  The two row conditionals run in
sequence (the second reads the updated `row_off`), likewise for columns.  The
subtraction `E.cy - E.screen_rows + 1` is guarded by
`E.cy >= E.row_off + E.screen_rows`, so it never underflows. -/
def editor_scroll (s : editor_config) : editor_config :=
  let ro1 := if s.cy < s.row_off then s.cy else s.row_off
  let ro2 := if s.cy ≥ ro1 + s.screen_rows then s.cy - s.screen_rows + 1 else ro1
  let co1 := if s.cx < s.col_off then s.cx else s.col_off
  let co2 := if s.cx ≥ co1 + s.screen_cols then s.cx - s.screen_cols + 1 else co1
  { s with row_off := ro2, col_off := co2 }

/-- `editor_process_keypress` (src/kilo.c:458-498) on an already-decoded key.
Returns the new state and whether the quit branch ran (`exit(0)`).
`PAGE_UP`/`PAGE_DOWN` run `editor_move_cursor` exactly `E.screen_rows` times
(`size_t times = E.screen_rows; while (times--) ...`).  The End key sets
`E.cx = E.screen_cols - 1`, a `size_t` subtraction. -/
def editor_process_keypress (c : Nat) (s : editor_config) : editor_config × Bool :=
  if c = CTRL_Q then
    (s, true)
  else if c = HOME_KEY then
    ({ s with cx := 0 }, false)
  else if c = END_KEY then
    ({ s with cx := szSub s.screen_cols 1 }, false)
  else if c = PAGE_UP ∨ c = PAGE_DOWN then
    ((fun st => editor_move_cursor (if c = PAGE_UP then ARROW_UP else ARROW_DOWN) st)^[s.screen_rows] s,
      false)
  else if c = ARROW_UP ∨ c = ARROW_DOWN ∨ c = ARROW_LEFT ∨ c = ARROW_RIGHT then
    (editor_move_cursor c s, false)
  else
    (s, false)

/-- Length of the longest row in the buffer (0 when empty). -/
def maxRowLen (s : editor_config) : Nat :=
  s.row.foldr (fun r m => max r.length m) 0

/-- Folding a list of key events through `editor_move_cursor`. -/
def processArrows (evs : List Nat) (s : editor_config) : editor_config :=
  evs.foldl (fun st k => editor_move_cursor k st) s

/-- Data-model invariants from spec section 3 on the cursor: `cursor.row` in
`[0, num_rows]`, and `cursor.col ≤ row_length(cursor.row)` whenever
`cursor.row < num_rows` (stated from the spec, for claims that quantify over
invariant-satisfying states). -/
def cursorInvariants (s : editor_config) : Prop :=
  s.cy ≤ s.row.length ∧
    (s.cy < s.row.length → s.cx ≤ (s.row.getD s.cy []).length)

instance (s : editor_config) : Decidable (cursorInvariants s) := by
  unfold cursorInvariants; infer_instance

/- Renderer (src/kilo.c:336-424). -/

/-- The welcome banner, the result of
`snprintf(welcome, 80, "Kilo editor -- version %s", KILO_VERSION)` with
`KILO_VERSION = "0.0.1"` (28 bytes, so the 80-byte buffer never truncates and
`snprintf` returns 28). -/
def KILO_WELCOME : List Nat := strBytes "Kilo editor -- version 0.0.1"

/-- Content bytes of one screen line in `editor_draw_rows`
(src/kilo.c:341-385), before the line-clear / CRLF suffixes:
* past-end rows get the welcome banner (empty buffer, `y = screen_rows / 3`)
  or a single `~` (byte 126);
* in-buffer rows get `len_u` bytes starting at offset `col_off`, where
  `len_u` is `(int) size - (int) col_off` clamped below at 0 and above at
  `screen_cols`.  Byte 32 is the space used for centering padding. -/
def drawLine (s : editor_config) (y : Nat) : List Nat :=
  let filerow := y + s.row_off
  if filerow ≥ s.row.length then
    if s.row.length = 0 ∧ y = s.screen_rows / 3 then
      let welcome_len := if KILO_WELCOME.length > s.screen_cols then s.screen_cols
        else KILO_WELCOME.length
      let padding := (s.screen_cols - welcome_len) / 2
      (if padding ≠ 0 then 126 :: List.replicate (padding - 1) 32 else [])
        ++ KILO_WELCOME.take welcome_len
    else [126]
  else
    let r := s.row.getD filerow []
    let len_s : Int := toCInt r.length - toCInt s.col_off
    let len_u0 : Nat := if len_s < 0 then 0 else len_s.toNat
    let len_u : Nat := if len_u0 > s.screen_cols then s.screen_cols else len_u0
    (r.drop s.col_off).take len_u

/-- `editor_draw_rows` (src/kilo.c:336-394): the content of each screen line,
followed by the line-clear code `ESC [ K`, with an explicit `\r\n` after every
line but the last (`if (y < E.screen_rows - 1)`, a guarded `size_t`
subtraction: inside the loop `screen_rows ≥ 1`). -/
def editor_draw_rows (s : editor_config) : List Nat :=
  ((List.range s.screen_rows).map fun y =>
    drawLine s y ++ strBytes "\x1b[K" ++
      (if y < s.screen_rows - 1 then strBytes "\r\n" else [])).flatten

/-- The cursor-positioning code built by
`snprintf(buf, 32, "\x1b[%zu;%zuH", (E.cy - E.row_off) + 1, (E.cx - E.col_off) + 1)`
followed by `ab_append(ab, buf, strlen(buf))`: `ESC [ row ; col H` in decimal,
truncated to 31 bytes (the buffer keeps at most 31 characters plus the
terminator).  Both subtractions are `size_t` arithmetic. -/
def cursorPosCode (s : editor_config) : List Nat :=
  (strBytes "\x1b[" ++ strBytes (toString ((szSub s.cy s.row_off + 1) % SZ_WORD))
    ++ strBytes ";" ++ strBytes (toString ((szSub s.cx s.col_off + 1) % SZ_WORD))
    ++ strBytes "H").take 31

/-- `editor_refresh_screen` (src/kilo.c:396-424): run `editor_scroll`, then
compose the frame — hide cursor, home, the drawn rows, the cursor-position
code, show cursor — written in a single `write`.  Returns the state after the
scroll recomputation and the frame bytes. -/
def editor_refresh_screen (s : editor_config) : editor_config × List Nat :=
  let s2 := editor_scroll s
  (s2,
    strBytes "\x1b[?25l" ++ strBytes "\x1b[H" ++ editor_draw_rows s2
      ++ cursorPosCode s2 ++ strBytes "\x1b[?25h")

/- Key decoder (src/kilo.c:126-185). -/

/-- One outcome of a `read(STDIN_FILENO, &c, 1)` call in raw mode with
`VMIN = 0`, `VTIME = 1`: either a byte arrives or the 100 ms timer expires
(`read` returns 0). -/
inductive Rd where
  | byte (b : Nat)
  | timeout
deriving DecidableEq

/-- A follow-up read inside the escape-sequence branch: the code gives up
(`return '\x1b'`) unless this single `read` call returns exactly one byte. -/
def readOne : List Rd → Option (Nat × List Rd)
  | Rd.byte b :: rest => some (b, rest)
  | _ => none

/-- Resolution of the bytes after a leading `ESC` (src/kilo.c:138-181).  Any
timeout, unrecognized byte or exhausted input falls back to the bare escape
byte 27. -/
def decodeEscSeq (input : List Rd) : Nat :=
  match readOne input with
  | none => 27
  | some (s0, r0) =>
    match readOne r0 with
    | none => 27
    | some (s1, r1) =>
      if s0 = 91 then
        if 48 ≤ s1 ∧ s1 ≤ 57 then
          match readOne r1 with
          | none => 27
          | some (s2, _) =>
            if s2 = 126 then
              if s1 = 49 then HOME_KEY
              else if s1 = 50 then END_KEY
              else if s1 = 51 then DEL_KEY
              else if s1 = 53 then PAGE_UP
              else if s1 = 54 then PAGE_DOWN
              else if s1 = 55 then HOME_KEY
              else if s1 = 56 then END_KEY
              else 27
            else 27
        else
          if s1 = 65 then ARROW_UP
          else if s1 = 66 then ARROW_DOWN
          else if s1 = 67 then ARROW_RIGHT
          else if s1 = 68 then ARROW_LEFT
          else if s1 = 72 then HOME_KEY
          else if s1 = 70 then END_KEY
          else 27
      else if s0 = 48 then
        if s1 = 72 then HOME_KEY
        else if s1 = 70 then END_KEY
        else 27
      else 27

/-- `editor_read_key` (src/kilo.c:126-185) over a finite trace of read
outcomes.  The first read retries on timeout (`while (read(...) != 1)`); a
non-escape byte is returned as-is; a leading `ESC` (27) enters
`decodeEscSeq`.  `none` means the trace ended before any byte arrived (the
real loop would still be polling). -/
def editor_read_key : List Rd → Option Nat
  | [] => none
  | Rd.timeout :: rest => editor_read_key rest
  | Rd.byte c :: rest => if c = 27 then some (decodeEscSeq rest) else some c

/- Line buffer and file loading (src/kilo.c:235-281). -/

/-- Stripping the trailing `\n`/`\r` run
(`while (linelen > 0 && (line[linelen-1] == '\n' || line[linelen-1] == '\r')) linelen--`
in `editor_open`): drop the maximal trailing run of bytes 10 and 13. -/
def stripTrailNL (l : List Nat) : List Nat :=
  (l.reverse.dropWhile fun b => b == 10 || b == 13).reverse

/-- One `getline` call on the remaining bytes: the chunk up to and including
the first `\n` (byte 10), or all remaining bytes when none occurs, together
with the rest of the input.  (`getline` only returns -1 on an empty rest,
which `editor_open` handles directly.) -/
def getlineChunk (l : List Nat) : List Nat × List Nat :=
  let pre := l.takeWhile fun b => b != 10
  (pre ++ (l.drop pre.length).take 1, l.drop (pre.length + 1))

/-- The read loop of `editor_open` (src/kilo.c:267-277) starting from an empty
buffer: repeatedly `getline` a physical line, strip its trailing `\n`/`\r`
run, and `editor_append_row` the result.  Returns the final row buffer. -/
def editor_open (bytes : List Nat) : List (List Nat) :=
  match bytes with
  | [] => []
  | b :: rest =>
    stripTrailNL (getlineChunk (b :: rest)).1 :: editor_open (getlineChunk (b :: rest)).2
termination_by bytes.length
decreasing_by
  simp only [getlineChunk, List.length_drop, List.length_cons]
  omega

/-- A well-formed decomposition of a file into its physical lines: every line
is nonempty and contains no `\n` before its last byte, and every line except
possibly the last ends in `\n`.  This characterises exactly the chunks that
successive `getline` calls return. -/
def physicalLinesWF (lines : List (List Nat)) : Prop :=
  (∀ c ∈ lines, c ≠ [] ∧ 10 ∉ c.dropLast) ∧
    ∀ c ∈ lines.dropLast, c.getLast? = some 10

instance (lines : List (List Nat)) : Decidable (physicalLinesWF lines) := by
  unfold physicalLinesWF; infer_instance

/- Concrete states used by witnesses and counterexamples. -/

/-- A 24x80 viewport over a one-row buffer "aaa", cursor at the origin. -/
def sSmall : editor_config := ⟨0, 0, 0, 0, 24, 80, [[97, 97, 97]]⟩

/-- A 24x80 viewport over the buffer ["aaaaa", ""], cursor at the end of the
first row: a state satisfying the data-model invariants. -/
def sTwoRows : editor_config := ⟨5, 0, 0, 0, 24, 80, [[97, 97, 97, 97, 97], []]⟩

/-- A 4-row viewport over a 30-row buffer, cursor at row 10 column 3. -/
def sPage : editor_config := ⟨3, 10, 0, 0, 4, 80, List.replicate 30 []⟩

/-- A 24x80 viewport over a buffer whose single row is 2^31 bytes long: the
`(int)` cast of its size is negative. -/
def sBig : editor_config := ⟨0, 0, 0, 0, 24, 80, [List.replicate (2 ^ 31) 97]⟩

/-- A 24x2 viewport over a one-row buffer "abcd" scrolled one column right. -/
def sClip : editor_config := ⟨0, 0, 0, 1, 24, 2, [[97, 98, 99, 100]]⟩

/- Theorems. -/

/-- C10: when `cursor.row` equals `num_rows` (the valid past-end position),
ArrowRight is a no-op: `row` is `NULL`, so the guard `row && E.cx < row->size`
fails and no field is written. -/
theorem C10_arrow_right_past_end (s : editor_config) (h : s.cy = s.row.length) :
    editor_move_cursor ARROW_RIGHT s = s := by
  have hnone : s.row[s.cy]? = none := by
    rw [List.getElem?_eq_none_iff]; omega
  simp [editor_move_cursor, hnone, ARROW_LEFT, ARROW_RIGHT]

/-- Witness for C10 at a concrete past-end state. -/
theorem C10_arrow_right_past_end_witness :
    editor_move_cursor ARROW_RIGHT ⟨0, 1, 0, 0, 24, 80, [[97]]⟩ =
      ⟨0, 1, 0, 0, 24, 80, [[97]]⟩ :=
  C10_arrow_right_past_end ⟨0, 1, 0, 0, 24, 80, [[97]]⟩ rfl

/-- C2, counterexample: in `sSmall` the cursor is on row 0 (which exists and
has length 3), yet the End key sets `cursor.col` to `screen_cols - 1 = 79`,
not to the row length 3 as the claim states. -/
theorem C2_counterexample :
    sSmall.cy < sSmall.row.length ∧
      (sSmall.row.getD sSmall.cy []).length = 3 ∧
      (editor_process_keypress END_KEY sSmall).1.cx = 79 ∧
      (editor_process_keypress END_KEY sSmall).1.cx ≠
        (sSmall.row.getD sSmall.cy []).length := by
  decide

/-- C2 (amended): Home sets `cursor.col` to 0; End sets `cursor.col` to
`viewport_cols - 1` unconditionally, whether or not `cursor.row` is past the
end of the buffer; no other state component changes and neither key quits. -/
theorem C2_home_end (s : editor_config) (h : 1 ≤ s.screen_cols) :
    editor_process_keypress HOME_KEY s = ({ s with cx := 0 }, false) ∧
      editor_process_keypress END_KEY s = ({ s with cx := s.screen_cols - 1 }, false) := by
  have hsz : szSub s.screen_cols 1 = s.screen_cols - 1 := by
    unfold szSub; rw [if_pos h]
  refine ⟨?_, ?_⟩ <;>
    simp [editor_process_keypress, hsz, CTRL_Q, HOME_KEY, END_KEY, PAGE_UP, PAGE_DOWN]

/-- Witness for C2 at a concrete state. -/
theorem C2_home_end_witness :
    editor_process_keypress HOME_KEY sSmall = ({ sSmall with cx := 0 }, false) ∧
      editor_process_keypress END_KEY sSmall = ({ sSmall with cx := 79 }, false) :=
  C2_home_end sSmall (by decide)

/-- C3: with a viewport of at least one row and one column, the state produced
by the scroll recomputation at the start of a render cycle keeps the cursor
inside the viewport window in both coordinates. -/
theorem C3_scroll_invariant (s : editor_config)
    (hr : 1 ≤ s.screen_rows) (hc : 1 ≤ s.screen_cols) :
    (editor_refresh_screen s).1.row_off ≤ (editor_refresh_screen s).1.cy ∧
      (editor_refresh_screen s).1.cy <
        (editor_refresh_screen s).1.row_off + (editor_refresh_screen s).1.screen_rows ∧
      (editor_refresh_screen s).1.col_off ≤ (editor_refresh_screen s).1.cx ∧
      (editor_refresh_screen s).1.cx <
        (editor_refresh_screen s).1.col_off + (editor_refresh_screen s).1.screen_cols := by
  have h1 : (editor_refresh_screen s).1 = editor_scroll s := rfl
  rw [h1]
  simp only [editor_scroll]
  split_ifs <;> simp_all <;> omega

/-- Witness for C3 at a concrete state that must scroll down and right. -/
theorem C3_scroll_invariant_witness :
    (editor_refresh_screen ⟨90, 30, 0, 0, 24, 80, []⟩).1.row_off ≤
        (editor_refresh_screen ⟨90, 30, 0, 0, 24, 80, []⟩).1.cy ∧
      (editor_refresh_screen ⟨90, 30, 0, 0, 24, 80, []⟩).1.cy <
        (editor_refresh_screen ⟨90, 30, 0, 0, 24, 80, []⟩).1.row_off +
          (editor_refresh_screen ⟨90, 30, 0, 0, 24, 80, []⟩).1.screen_rows ∧
      (editor_refresh_screen ⟨90, 30, 0, 0, 24, 80, []⟩).1.col_off ≤
        (editor_refresh_screen ⟨90, 30, 0, 0, 24, 80, []⟩).1.cx ∧
      (editor_refresh_screen ⟨90, 30, 0, 0, 24, 80, []⟩).1.cx <
        (editor_refresh_screen ⟨90, 30, 0, 0, 24, 80, []⟩).1.col_off +
          (editor_refresh_screen ⟨90, 30, 0, 0, 24, 80, []⟩).1.screen_cols :=
  C3_scroll_invariant ⟨90, 30, 0, 0, 24, 80, []⟩ (by decide) (by decide)

/-- C4: the key decoder maps `ESC [ A` to ArrowUp, `ESC [ 3 ~` to Delete,
`ESC [ 5 ~` to PageUp, a lone `ESC` whose follow-up read times out to the bare
escape byte 27 (also when the second follow-up read times out), and for
`ESC [ digit ~` maps digits 1/7 to Home, 2/8 to End, 3 to Delete, 5 to PageUp,
6 to PageDown, and every other digit (0, 4, 9) to bare escape. -/
theorem C4_decoder_sequences :
    editor_read_key [Rd.byte 27, Rd.byte 91, Rd.byte 65] = some ARROW_UP ∧
      editor_read_key [Rd.byte 27, Rd.byte 91, Rd.byte 51, Rd.byte 126] = some DEL_KEY ∧
      editor_read_key [Rd.byte 27, Rd.byte 91, Rd.byte 53, Rd.byte 126] = some PAGE_UP ∧
      editor_read_key [Rd.byte 27, Rd.timeout] = some 27 ∧
      editor_read_key [Rd.byte 27, Rd.byte 91, Rd.timeout] = some 27 ∧
      editor_read_key [Rd.byte 27, Rd.byte 91, Rd.byte 49, Rd.byte 126] = some HOME_KEY ∧
      editor_read_key [Rd.byte 27, Rd.byte 91, Rd.byte 50, Rd.byte 126] = some END_KEY ∧
      editor_read_key [Rd.byte 27, Rd.byte 91, Rd.byte 52, Rd.byte 126] = some 27 ∧
      editor_read_key [Rd.byte 27, Rd.byte 91, Rd.byte 54, Rd.byte 126] = some PAGE_DOWN ∧
      editor_read_key [Rd.byte 27, Rd.byte 91, Rd.byte 55, Rd.byte 126] = some HOME_KEY ∧
      editor_read_key [Rd.byte 27, Rd.byte 91, Rd.byte 56, Rd.byte 126] = some END_KEY ∧
      editor_read_key [Rd.byte 27, Rd.byte 91, Rd.byte 48, Rd.byte 126] = some 27 ∧
      editor_read_key [Rd.byte 27, Rd.byte 91, Rd.byte 57, Rd.byte 126] = some 27 := by
  decide

/-- Helper: `editor_scroll` is idempotent.  After one recomputation the two
row conditionals are both false (or, with a zero-height viewport, the
recomputation always lands on `cy + 1`), and likewise for columns. -/
theorem editor_scroll_idem (s : editor_config) :
    editor_scroll (editor_scroll s) = editor_scroll s := by
  simp only [editor_scroll]
  split_ifs <;> simp_all <;> omega

/-- C8: a render cycle is `editor_scroll` followed by composing the frame from
the scrolled state, so running it twice from any state yields the same
post-state and a byte-identical frame the second time. -/
theorem C8_refresh_idempotent (s : editor_config) :
    editor_refresh_screen (editor_refresh_screen s).1 = editor_refresh_screen s := by
  simp only [editor_refresh_screen, editor_scroll_idem]

set_option maxRecDepth 40000 in
/-- C9: on a 24x80 viewport with an empty buffer, cursor at the origin and
zero scroll offsets, the frame is exactly: hide-cursor, cursor-home, then 24
lines each ending in the line-clear code and separated by CR LF, where line 8
(= 24 / 3) is the centered welcome banner (a leading `~`, 25 spaces, and the
28-byte name-and-version text) and the other 23 lines are a single `~`,
followed by the absolute cursor-positioning code for (1,1) and show-cursor;
the state is unchanged. -/
theorem C9_welcome_frame :
    editor_refresh_screen ⟨0, 0, 0, 0, 24, 80, []⟩ =
      (⟨0, 0, 0, 0, 24, 80, []⟩,
        strBytes "\x1b[?25l" ++ strBytes "\x1b[H" ++
          (List.intercalate (strBytes "\r\n")
            ((List.replicate 8 [126] ++
              [126 :: (List.replicate 25 32 ++ strBytes "Kilo editor -- version 0.0.1")] ++
              List.replicate 15 [126]).map (· ++ strBytes "\x1b[K"))) ++
          strBytes "\x1b[1;1H" ++ strBytes "\x1b[?25h") := by
  decide

/-- Helper: iterating the ArrowUp step `n` times decrements `cy` by `n`,
stopping at 0 (truncated `Nat` subtraction), and changes nothing else. -/
theorem iterate_arrow_up (n : Nat) (s : editor_config) :
    (fun st => editor_move_cursor ARROW_UP st)^[n] s = { s with cy := s.cy - n } := by
  induction n generalizing s with
  | zero => simp
  | succ n ih =>
    rw [Function.iterate_succ_apply, ih]
    by_cases h : s.cy = 0
    · simp [editor_move_cursor, ARROW_LEFT, ARROW_RIGHT, ARROW_UP, h,
        editor_config.mk.injEq]
    · simp [editor_move_cursor, ARROW_LEFT, ARROW_RIGHT, ARROW_UP, h,
        editor_config.mk.injEq]
      omega

/-- Helper: iterating the ArrowDown step `n` times increments `cy` by `n`,
clamped at `num_rows`, provided `cy` starts at or below `num_rows`; nothing
else changes. -/
theorem iterate_arrow_down (n : Nat) (s : editor_config) (h : s.cy ≤ s.row.length) :
    (fun st => editor_move_cursor ARROW_DOWN st)^[n] s =
      { s with cy := min (s.cy + n) s.row.length } := by
  induction n generalizing s with
  | zero => simp [Nat.min_eq_left h]
  | succ n ih =>
    rw [Function.iterate_succ_apply]
    by_cases hlt : s.cy < s.row.length
    · have hstep : editor_move_cursor ARROW_DOWN s = { s with cy := s.cy + 1 } := by
        simp [editor_move_cursor, ARROW_LEFT, ARROW_RIGHT, ARROW_UP, ARROW_DOWN, hlt]
      rw [hstep, ih _ (by simpa using hlt)]
      congr 1
      simp only []
      omega
    · have heq : s.cy = s.row.length := by omega
      have hstep : editor_move_cursor ARROW_DOWN s = s := by
        simp [editor_move_cursor, ARROW_LEFT, ARROW_RIGHT, ARROW_UP, ARROW_DOWN, hlt]
      rw [hstep, ih _ h]
      congr 1
      omega

/-- C7: with `cursor.row ≤ num_rows`, one PageUp (resp. PageDown) equals
`viewport_rows` consecutive ArrowUp (resp. ArrowDown) steps, and therefore
sets `cursor.row` to `max(cursor.row - viewport_rows, 0)` (truncated `Nat`
subtraction) resp. `min(cursor.row + viewport_rows, num_rows)`, leaving
`cursor.col` and every other component unchanged. -/
theorem C7_page_keys (s : editor_config) (h : s.cy ≤ s.row.length) :
    (editor_process_keypress PAGE_UP s).1 =
        (fun st => editor_move_cursor ARROW_UP st)^[s.screen_rows] s ∧
      (editor_process_keypress PAGE_DOWN s).1 =
        (fun st => editor_move_cursor ARROW_DOWN st)^[s.screen_rows] s ∧
      (editor_process_keypress PAGE_UP s).1 = { s with cy := s.cy - s.screen_rows } ∧
      (editor_process_keypress PAGE_DOWN s).1 =
        { s with cy := min (s.cy + s.screen_rows) s.row.length } := by
  have hup : (editor_process_keypress PAGE_UP s).1 =
      (fun st => editor_move_cursor ARROW_UP st)^[s.screen_rows] s := by
    simp [editor_process_keypress, CTRL_Q, HOME_KEY, END_KEY, PAGE_UP, PAGE_DOWN]
  have hdn : (editor_process_keypress PAGE_DOWN s).1 =
      (fun st => editor_move_cursor ARROW_DOWN st)^[s.screen_rows] s := by
    simp [editor_process_keypress, CTRL_Q, HOME_KEY, END_KEY, PAGE_UP, PAGE_DOWN]
  exact ⟨hup, hdn, by rw [hup, iterate_arrow_up], by rw [hdn, iterate_arrow_down _ _ h]⟩

/-- Witness for C7 at `sPage` (cursor on row 10 of 30, 4-row viewport):
PageUp lands on row 6, PageDown on row 14, column untouched. -/
theorem C7_page_keys_witness :
    (editor_process_keypress PAGE_UP sPage).1 = { sPage with cy := 6 } ∧
      (editor_process_keypress PAGE_DOWN sPage).1 = { sPage with cy := 14 } := by
  have h := C7_page_keys sPage (by decide)
  refine ⟨?_, ?_⟩
  · rw [h.2.2.1]; decide
  · rw [h.2.2.2]; decide

/-- Helper: every member of a list of rows is no longer than the folded
maximum length. -/
theorem length_le_fold_max (L : List (List Nat)) (r : List Nat) (h : r ∈ L) :
    r.length ≤ L.foldr (fun x m => max x.length m) 0 := by
  induction L with
  | nil => simp at h
  | cons a L ih =>
    rcases List.mem_cons.mp h with rfl | h2
    · simp
    · exact le_trans (ih h2) (le_max_right _ _)

/-- Helper: one `editor_move_cursor` step keeps the buffer, keeps `cy` at or
below `num_rows`, and keeps `cx` at or below the larger of its starting value
and the longest row length (ArrowRight only increments `cx` below the length
of an existing row). -/
theorem move_cursor_step_inv (s0 : editor_config) (k : Nat) (s : editor_config)
    (hrow : s.row = s0.row) (hcy : s.cy ≤ s0.row.length)
    (hcx : s.cx ≤ max s0.cx (maxRowLen s0)) :
    (editor_move_cursor k s).row = s0.row ∧
      (editor_move_cursor k s).cy ≤ s0.row.length ∧
      (editor_move_cursor k s).cx ≤ max s0.cx (maxRowLen s0) := by
  have hmax : ∀ r ∈ s.row, r.length ≤ maxRowLen s0 := by
    intro r hr
    rw [hrow] at hr
    exact length_le_fold_max s0.row r hr
  simp only [editor_move_cursor]
  by_cases h1 : k = ARROW_LEFT
  · rw [if_pos h1]
    split_ifs with hx
    · exact ⟨hrow, hcy, by dsimp; omega⟩
    · exact ⟨hrow, hcy, hcx⟩
  rw [if_neg h1]
  by_cases h2 : k = ARROW_RIGHT
  · rw [if_pos h2]
    cases hget : s.row[s.cy]? with
    | none => exact ⟨hrow, hcy, hcx⟩
    | some r =>
      have hrlen := hmax r (List.getElem?_mem hget)
      dsimp only
      split_ifs with hx
      · exact ⟨hrow, hcy, by dsimp; omega⟩
      · exact ⟨hrow, hcy, hcx⟩
  rw [if_neg h2]
  by_cases h3 : k = ARROW_UP
  · rw [if_pos h3]
    split_ifs with hx
    · exact ⟨hrow, by dsimp; omega, hcx⟩
    · exact ⟨hrow, hcy, hcx⟩
  rw [if_neg h3]
  by_cases h4 : k = ARROW_DOWN
  · rw [if_pos h4]
    split_ifs with hx
    · refine ⟨hrow, ?_, hcx⟩
      dsimp
      rw [hrow] at hx
      omega
    · exact ⟨hrow, hcy, hcx⟩
  rw [if_neg h4]
  exact ⟨hrow, hcy, hcx⟩

/-- Helper: the step invariant of `move_cursor_step_inv` carries through any
sequence of key events. -/
theorem processArrows_inv (evs : List Nat) (s0 s : editor_config)
    (hrow : s.row = s0.row) (hcy : s.cy ≤ s0.row.length)
    (hcx : s.cx ≤ max s0.cx (maxRowLen s0)) :
    (processArrows evs s).row = s0.row ∧
      (processArrows evs s).cy ≤ s0.row.length ∧
      (processArrows evs s).cx ≤ max s0.cx (maxRowLen s0) := by
  induction evs generalizing s with
  | nil => exact ⟨hrow, hcy, hcx⟩
  | cons k evs ih =>
    have hstep := move_cursor_step_inv s0 k s hrow hcy hcx
    exact ih _ hstep.1 hstep.2.1 hstep.2.2

/-- C1, counterexample: `sTwoRows` satisfies the data-model invariants
(cursor at column 5 on the 5-byte row 0 of a 2-row buffer), but a single
ArrowDown leaves the cursor on the existing empty row 1 with column 5, so
`cursor.col` exceeds `row_length(cursor.row)`: this version of the code never
snaps the column after a vertical move. -/
theorem C1_counterexample :
    cursorInvariants sTwoRows ∧
      (processArrows [ARROW_DOWN] sTwoRows).cy < sTwoRows.row.length ∧
      (sTwoRows.row.getD (processArrows [ARROW_DOWN] sTwoRows).cy []).length <
        (processArrows [ARROW_DOWN] sTwoRows).cx := by
  decide

/-- C1 (amended): for every start state with `cursor.row ≤ num_rows` and every
sequence of arrow events, the buffer is untouched, `cursor.row` stays within
`[0, num_rows]`, and `cursor.col` stays within
`[0, max(initial cursor.col, length of the longest row)]`; the per-row bound
`cursor.col ≤ row_length(cursor.row)` of the original claim is not preserved
across vertical moves (see the counterexample). -/
theorem C1_cursor_bounds_amended (s : editor_config) (evs : List Nat)
    (_harrows : ∀ k ∈ evs,
      k = ARROW_UP ∨ k = ARROW_DOWN ∨ k = ARROW_LEFT ∨ k = ARROW_RIGHT)
    (h : s.cy ≤ s.row.length) :
    (processArrows evs s).row = s.row ∧
      (processArrows evs s).cy ≤ s.row.length ∧
      (processArrows evs s).cx ≤ max s.cx (maxRowLen s) :=
  processArrows_inv evs s s rfl h (le_max_left _ _)

/-- Witness for C1 at `sTwoRows` with a Down-Left-Right-Down sequence. -/
theorem C1_cursor_bounds_witness :
    (processArrows [ARROW_DOWN, ARROW_LEFT, ARROW_RIGHT, ARROW_DOWN] sTwoRows).row =
        sTwoRows.row ∧
      (processArrows [ARROW_DOWN, ARROW_LEFT, ARROW_RIGHT, ARROW_DOWN] sTwoRows).cy ≤
        sTwoRows.row.length ∧
      (processArrows [ARROW_DOWN, ARROW_LEFT, ARROW_RIGHT, ARROW_DOWN] sTwoRows).cx ≤
        max sTwoRows.cx (maxRowLen sTwoRows) :=
  C1_cursor_bounds_amended sTwoRows [ARROW_DOWN, ARROW_LEFT, ARROW_RIGHT, ARROW_DOWN]
    (by decide) (by decide)

/-- Helper: the `(int)` cast is the identity below 2^31. -/
theorem toCInt_small (n : Nat) (h : n < 2 ^ 31) : toCInt n = (n : Int) := by
  unfold toCInt
  have h32 : n % 2 ^ 32 = n := Nat.mod_eq_of_lt (by omega)
  rw [h32, if_pos h]

/-- C6, counterexample: on a row of 2^31 bytes with zero column offset, the
`(int)` cast of the size is negative, so `editor_draw_rows` emits zero
content bytes although the claimed substring (the first `viewport_cols = 80`
bytes of the row) is nonempty. -/
theorem C6_counterexample :
    0 + sBig.row_off < sBig.row.length ∧
      drawLine sBig 0 ≠
        ((sBig.row.getD (0 + sBig.row_off) []).drop sBig.col_off).take sBig.screen_cols := by
  have hro : sBig.row_off = 0 := rfl
  have hco : sBig.col_off = 0 := rfl
  have hsc : sBig.screen_cols = 80 := rfl
  have hlen1 : sBig.row.length = 1 := rfl
  have hget : sBig.row.getD (0 + sBig.row_off) [] = List.replicate (2 ^ 31) 97 := rfl
  constructor
  · rw [hro, hlen1]
    omega
  · have hlhs : drawLine sBig 0 = [] := by
      simp only [drawLine]
      rw [if_neg (by rw [hro, hlen1]; omega)]
      rw [hget, List.length_replicate, hco]
      have hcast : toCInt (2 ^ 31) = 2 ^ 31 - 2 ^ 32 := by
        unfold toCInt
        rw [Nat.mod_eq_of_lt (by norm_num), if_neg (by norm_num)]
        norm_num
      rw [hcast, toCInt_small 0 (by norm_num)]
      have hcond : ((2 : Int) ^ 31 - 2 ^ 32 - ((0 : Nat) : Int)) < 0 := by
        norm_num
      rw [if_pos hcond]
      have hcond2 : ¬ ((0 : Nat) > sBig.screen_cols) := by
        rw [hsc]
        omega
      rw [if_neg hcond2]
      rw [List.take_zero]
    rw [hlhs, hget, hco, hsc, List.drop_zero]
    intro hEq
    have hlen := congrArg List.length hEq
    rw [List.length_nil, List.length_take, List.length_replicate] at hlen
    omega

/-- C6 (amended): for every visible screen line whose mapped file row exists,
provided the row length and the column offset are below 2^31 (so the `(int)`
casts are faithful), the renderer emits exactly the substring of that row
starting at `scroll_offset.col` truncated to `viewport_cols` bytes; in
particular an offset at or past the row length yields zero bytes, not an
error. -/
theorem C6_draw_content_amended (s : editor_config) (y : Nat)
    (hy : y + s.row_off < s.row.length)
    (hlen : (s.row.getD (y + s.row_off) []).length < 2 ^ 31)
    (hoff : s.col_off < 2 ^ 31) :
    drawLine s y =
      ((s.row.getD (y + s.row_off) []).drop s.col_off).take s.screen_cols := by
  simp only [drawLine]
  rw [if_neg (by omega)]
  set r := s.row.getD (y + s.row_off) [] with hr
  rw [toCInt_small r.length hlen, toCInt_small s.col_off hoff]
  by_cases hc : s.col_off ≤ r.length
  · have hpos : ¬ ((r.length : Int) - (s.col_off : Int) < 0) := by omega
    rw [if_neg hpos]
    have htoNat : ((r.length : Int) - (s.col_off : Int)).toNat = r.length - s.col_off := by
      omega
    rw [htoNat]
    by_cases hclip : r.length - s.col_off > s.screen_cols
    · rw [if_pos hclip]
    · rw [if_neg hclip]
      have hdl : (r.drop s.col_off).length = r.length - s.col_off := by
        simp [List.length_drop]
      rw [List.take_of_length_le (by omega), List.take_of_length_le (by omega)]
  · have hneg : (r.length : Int) - (s.col_off : Int) < 0 := by omega
    rw [if_pos hneg]
    have h0 : ¬ ((0 : Nat) > s.screen_cols) := by omega
    rw [if_neg h0]
    rw [List.drop_eq_nil_of_le (by omega)]
    simp

/-- Witness for C6 at `sClip`: offset 1 into "abcd" clipped to 2 columns
gives "bc". -/
theorem C6_draw_content_witness : drawLine sClip 0 = [98, 99] := by
  have h := C6_draw_content_amended sClip 0 (by decide) (by decide) (by decide)
  rw [h]
  decide

/-- Helper: `takeWhile (not newline)` of a line ending in the first `\n`. -/
theorem takeWhile_append_cons10 (c : List Nat) (h : 10 ∉ c) (r : List Nat) :
    (c ++ 10 :: r).takeWhile (fun b => b != 10) = c := by
  induction c with
  | nil => simp
  | cons a c ih =>
    have ha : a ≠ 10 := fun hEq => h (hEq ▸ List.mem_cons_self a c)
    have h2 : 10 ∉ c := fun hm => h (List.mem_cons_of_mem a hm)
    simp only [List.cons_append, List.takeWhile_cons]
    simp [ha, ih h2]

/-- Helper: `takeWhile (not newline)` of a newline-free list is the list. -/
theorem takeWhile_eq_self_of (c : List Nat) (h : 10 ∉ c) :
    c.takeWhile (fun b => b != 10) = c := by
  induction c with
  | nil => simp
  | cons a c ih =>
    have ha : a ≠ 10 := fun hEq => h (hEq ▸ List.mem_cons_self a c)
    have h2 : 10 ∉ c := fun hm => h (List.mem_cons_of_mem a hm)
    simp only [List.takeWhile_cons]
    simp [ha, ih h2]

/-- Helper: `getline` on input starting with a newline-terminated line returns
that line (terminator included) and the rest. -/
theorem getlineChunk_mid (c : List Nat) (h : 10 ∉ c) (r : List Nat) :
    getlineChunk (c ++ 10 :: r) = (c ++ [10], r) := by
  have h1 : (c ++ 10 :: r).drop c.length = 10 :: r := List.drop_left c (10 :: r)
  have h2 : (c ++ 10 :: r).drop (c.length + 1) = r := by
    have hsplit : c ++ 10 :: r = (c ++ [10]) ++ r := by simp
    rw [hsplit]
    have hl : (c ++ [10]).length = c.length + 1 := by simp
    rw [← hl]
    exact List.drop_left _ _
  simp only [getlineChunk]
  rw [takeWhile_append_cons10 c h r, h1, h2]
  simp

/-- Helper: `getline` on a newline-free remainder returns all of it and
leaves nothing. -/
theorem getlineChunk_lastc (c : List Nat) (h : 10 ∉ c) :
    getlineChunk c = (c, []) := by
  simp only [getlineChunk]
  rw [takeWhile_eq_self_of c h, List.drop_length]
  rw [List.drop_eq_nil_of_le (by omega)]
  simp

/-- Helper: unfolding `editor_open` on an empty file (`getline` returns -1 at
once). -/
theorem editor_open_nil : editor_open [] = [] := by
  rw [editor_open]

/-- Helper: unfolding one `getline` / strip / append iteration of
`editor_open` on a nonempty input. -/
theorem editor_open_ne_nil (l : List Nat) (h : l ≠ []) :
    editor_open l =
      stripTrailNL (getlineChunk l).1 :: editor_open (getlineChunk l).2 := by
  cases l with
  | nil => exact absurd rfl h
  | cons b rest => rw [editor_open]

/-- C5: for every file made of `N` physical lines (each nonempty, containing
`\n` only as its final byte, all but possibly the last newline-terminated),
`editor_open` produces exactly `N` rows in file order, each the line with its
trailing maximal `\n`/`\r` run removed; with zero lines (the empty file) it
produces 0 rows, not an error. -/
theorem C5_load (lines : List (List Nat)) (h : physicalLinesWF lines) :
    editor_open lines.flatten = lines.map stripTrailNL := by
  induction lines with
  | nil =>
    simpa using editor_open_nil
  | cons c rest ih =>
    obtain ⟨h1, h2⟩ := h
    have hc := h1 c (List.mem_cons_self c rest)
    have hcne : c ≠ [] := hc.1
    have hcdl : 10 ∉ c.dropLast := hc.2
    rw [List.flatten_cons, List.map_cons]
    cases rest with
    | nil =>
      rw [List.flatten_nil, List.append_nil, List.map_nil]
      by_cases hlast : c.getLast? = some 10
      · have hg : c.getLast hcne = 10 := by
          rw [List.getLast?_eq_getLast c hcne] at hlast
          exact Option.some_injective _ hlast
        have hsplit : c.dropLast ++ [10] = c := by
          have hd := List.dropLast_append_getLast hcne
          rw [hg] at hd
          exact hd
        rw [← hsplit]
        rw [editor_open_ne_nil _ (by simp)]
        rw [show c.dropLast ++ [10] = c.dropLast ++ 10 :: [] from rfl]
        rw [getlineChunk_mid c.dropLast hcdl []]
        dsimp only
        rw [editor_open_nil]
      · have h10 : 10 ∉ c := by
          intro hmem
          have hd := List.dropLast_append_getLast hcne
          rw [← hd] at hmem
          rcases List.mem_append.mp hmem with hm | hm
          · exact hcdl hm
          · have : c.getLast hcne = 10 := by
              have := List.mem_singleton.mp hm
              omega
            exact hlast (by rw [List.getLast?_eq_getLast c hcne, this])
        rw [editor_open_ne_nil c hcne, getlineChunk_lastc c h10]
        dsimp only
        rw [editor_open_nil]
    | cons r rs =>
      have hlast : c.getLast? = some 10 := by
        apply h2
        simp [List.dropLast_cons₂]
      have hg : c.getLast hcne = 10 := by
        rw [List.getLast?_eq_getLast c hcne] at hlast
        exact Option.some_injective _ hlast
      have hsplit : c.dropLast ++ [10] = c := by
        have hd := List.dropLast_append_getLast hcne
        rw [hg] at hd
        exact hd
      have hwf : physicalLinesWF (r :: rs) := by
        refine ⟨fun x hx => h1 x (List.mem_cons_of_mem c hx), fun x hx => h2 x ?_⟩
        rw [List.dropLast_cons₂]
        exact List.mem_cons_of_mem c hx
      rw [← hsplit, List.append_assoc]
      rw [editor_open_ne_nil _ (by simp)]
      rw [show [10] ++ (r :: rs).flatten = 10 :: (r :: rs).flatten from rfl]
      rw [getlineChunk_mid c.dropLast hcdl ((r :: rs).flatten)]
      dsimp only
      rw [ih hwf, hsplit]

/-- Witness for C5 on the concrete file "a\nb\r\nc" (three physical lines,
the last without a terminator): three rows, stripped of the trailing
`\n`/`\r` runs. -/
theorem C5_load_witness : editor_open [97, 10, 98, 13, 10, 99] = [[97], [98], [99]] := by
  have h := C5_load [[97, 10], [98, 13, 10], [99]] (by decide)
  rw [show ([[97, 10], [98, 13, 10], [99]] : List (List Nat)).flatten =
    [97, 10, 98, 13, 10, 99] from by decide] at h
  rw [h]
  decide
